import Mathlib

/-!
# Verification of the module specifier rewrite engine (dsherret/d2n)

Shallow embedding of `rs-lib/src/visitors/module_specifiers.rs` (the module
specifier text-change visitor) and `rs-lib/tests/integration/test_builder.rs`
(the test builder), together with models of the interfaces they consume
(`ModuleGraph::resolve_dependency`, `Mappings::get_file_path`,
`get_relative_specifier`, and the text-change application step), which live in
the same crate outside the embedded files and are modelled from the spec where
their internals matter.

Module specifiers are modelled as `String`, output file paths as lists of path
segments (`List String`), byte positions as `Nat`.
-/

/-- A single text edit (crate `TextChange`): a half-open byte-offset span into
one module's original source text plus the replacement text.  In the Rust the
span is an swc `Span` built from `BytePos` values; here `spanLo`/`spanHi` are
the two byte offsets. -/
structure TextChange where
  spanLo : Nat
  spanHi : Nat
  new_text : String
deriving DecidableEq, Repr

/-- An swc string literal node (`Str`) as used by `visit_module_specifier`:
its span includes the surrounding quote characters, and `value` is the cooked
string value between the quotes. -/
structure Str where
  spanLo : Nat
  spanHi : Nat
  value : String
deriving DecidableEq, Repr

/-- The top-level program child nodes distinguished by
`get_module_specifier_text_changes`: the Rust `for child in
params.program.children()` loop matches `ImportDecl` (required source),
`ExportAll` (required source), `NamedExport` (optional source) and drops every
other node kind in the `_ => {}` arm — including namespace/module declarations
whose bodies may themselves contain import/export forms (modelled by
`moduleDecl`, which carries its body but is never descended into). -/
inductive Node where
  | importDecl (src : Str)
  | exportAll (src : Str)
  | namedExport (src : Option Str)
  | moduleDecl (body : List Node)
  | other

/-- The interface of `crate::graph::ModuleGraph` that the visitor consumes:
`resolve_dependency(value, containing_specifier)` returns the canonical
resolved target specifier or nothing. -/
structure ModuleGraph where
  resolve_dependency : String → String → Option String

/-- The interface of `crate::mappings::Mappings` that the visitor consumes:
`get_file_path` assigns each specifier its output file path (modelled as a
list of path segments, the final segment being the file name). -/
structure Mappings where
  get_file_path : String → List String

/-- First-match association-list lookup, modelling `HashMap::get` (the visitor
only ever reads the map, so lookup semantics are all that is needed). -/
def lookupAssoc {α : Type} (m : List (String × α)) (k : String) : Option α :=
  (m.find? (fun p => p.1 == k)).map (fun p => p.2)

/-- Strip the longest common leading run of segments from two paths, returning
the two remainders. -/
def stripCommon : List String → List String → List String × List String
  | a :: as, b :: bs => if a = b then stripCommon as bs else (a :: as, b :: bs)
  | as, bs => (as, bs)

/-- Join path segments with forward-slash separators. -/
def joinSlash : List String → String
  | [] => ""
  | [s] => s
  | s :: t :: rest => s ++ "/" ++ joinSlash (t :: rest)

/-- The number of `..` hops and the list of descending segments of the
relative path leading from `fromPath` to `toPath` (both output file paths,
final segment the file name). -/
def relParts (fromPath toPath : List String) : Nat × List String :=
  ((stripCommon fromPath.dropLast toPath.dropLast).1.length,
    (stripCommon fromPath.dropLast toPath.dropLast).2 ++ [toPath.getLastD ""])

/-- Modelled from the spec: `get_relative_specifier` (crate `utils`, outside
the embedded files) — "the shortest relative path from the containing module's
output path to the target's output path, using forward-slash separators,
always explicitly prefixed with `./` or `../`". -/
def get_relative_specifier (fromPath toPath : List String) : String :=
  if (relParts fromPath toPath).1 = 0 then
    "./" ++ joinSlash (relParts fromPath toPath).2
  else
    joinSlash
      (List.replicate (relParts fromPath toPath).1 ".." ++
        (relParts fromPath toPath).2)

/-- The visitor's `Context` (minus the accumulated `text_changes` vector,
which is threaded explicitly). -/
structure Context where
  specifier : String
  module_graph : ModuleGraph
  mappings : Mappings
  output_file_path : List String
  specifier_mappings : List (String × String)

/-- Function `visit_module_specifier`: resolve the literal's value through the module
graph; on failure push nothing (early `return`); otherwise compute the
replacement (bare mapped specifier if present, else relative path between
output file paths) and push one `TextChange` spanning `lo + 1 .. hi - 1`,
i.e. strictly between the quotes.  Returns the list of changes pushed. -/
def visit_module_specifier (str : Str) (context : Context) : List TextChange :=
  let value := str.value
  match context.module_graph.resolve_dependency value context.specifier with
  | none => []
  | some specifier =>
    let new_text :=
      match lookupAssoc context.specifier_mappings specifier with
      | some bare_specifier => bare_specifier
      | none =>
        let specifier_file_path := context.mappings.get_file_path specifier
        get_relative_specifier context.output_file_path specifier_file_path
    [{ spanLo := str.spanLo + 1, spanHi := str.spanHi - 1, new_text := new_text }]

/-- One iteration of the visitor's `for child in params.program.children()`
match: import declarations, export-all declarations and named exports with a
source string are visited; everything else falls into `_ => {}`. -/
def visit_program_child (context : Context) : Node → List TextChange
  | .importDecl src => visit_module_specifier src context
  | .exportAll src => visit_module_specifier src context
  | .namedExport (some src) => visit_module_specifier src context
  | .namedExport none => []
  | .moduleDecl _ => []
  | .other => []

/-- Structure `GetModuleSpecifierTextChangesParams`. -/
structure GetModuleSpecifierTextChangesParams where
  specifier : String
  module_graph : ModuleGraph
  mappings : Mappings
  program : List Node
  specifier_mappings : List (String × String)

/-- The `Context` built at the start of `get_module_specifier_text_changes`
(in particular `output_file_path := mappings.get_file_path(specifier)`). -/
def mkContext (params : GetModuleSpecifierTextChangesParams) : Context :=
  { specifier := params.specifier
    module_graph := params.module_graph
    mappings := params.mappings
    output_file_path := params.mappings.get_file_path params.specifier
    specifier_mappings := params.specifier_mappings }

/-- Function `get_module_specifier_text_changes`: fold over the program's children,
appending the changes pushed by each visited child, and return the
accumulated vector. -/
def get_module_specifier_text_changes
    (params : GetModuleSpecifierTextChangesParams) : List TextChange :=
  params.program.foldl
    (fun acc child => acc ++ visit_program_child (mkContext params) child) []

/-- The source string literals of a program's top-level children, in module
body order: exactly the literals passed to `visit_module_specifier`. -/
def sourceStrs : List Node → List Str
  | [] => []
  | .importDecl src :: rest => src :: sourceStrs rest
  | .exportAll src :: rest => src :: sourceStrs rest
  | .namedExport (some src) :: rest => src :: sourceStrs rest
  | .namedExport none :: rest => sourceStrs rest
  | .moduleDecl _ :: rest => sourceStrs rest
  | .other :: rest => sourceStrs rest

/-- A string literal of a parsed module is well formed when its span is wide
enough for its two quote characters. -/
def StrWf (s : Str) : Prop := s.spanLo + 2 ≤ s.spanHi

/-- The source literals of a parsed module are well formed and appear at
pairwise disjoint, ordered spans. -/
def SpansWf (strs : List Str) : Prop :=
  (∀ s ∈ strs, StrWf s) ∧ strs.Pairwise (fun a b => a.spanHi ≤ b.spanLo)

/-- Ordering of text changes by span start offset, used by the apply step. -/
def changeLe (c1 c2 : TextChange) : Prop := c1.spanLo ≤ c2.spanLo

instance : DecidableRel changeLe := fun c1 c2 => Nat.decLe c1.spanLo c2.spanLo

instance : IsTotal TextChange changeLe :=
  ⟨fun c1 c2 => Nat.le_total c1.spanLo c2.spanLo⟩

instance : IsTrans TextChange changeLe :=
  ⟨fun _ _ _ h1 h2 => Nat.le_trans h1 h2⟩

/-- Strict ordering of text changes by span start offset. -/
def changeLt (c1 c2 : TextChange) : Prop := c1.spanLo < c2.spanLo

instance : IsAntisymm TextChange changeLt :=
  ⟨fun _ _ h1 h2 => absurd h1 (Nat.not_lt.mpr (Nat.le_of_lt h2))⟩

/-- The slice of `src` between byte offsets `a` (inclusive) and `b`
(exclusive). -/
def sliceL (src : List Char) (a b : Nat) : List Char :=
  (src.drop a).take (b - a)

/-- Apply an ascending list of changes to `src`, having already emitted
everything before offset `pos`: copy the text up to the next change's start,
emit its replacement, and continue after its end. -/
def applyChangesSorted (src : List Char) : List TextChange → Nat → List Char
  | [], pos => src.drop pos
  | c :: rest, pos =>
    sliceL src pos c.spanLo ++ c.new_text.toList ++ applyChangesSorted src rest c.spanHi

/-- Modelled from the spec: the text-change application step (crate
`text_changes`, outside the embedded files) — "applying them must be
order-independent (achieved by sorting by start offset before application)".
Sorts the changes by span start offset, then splices each replacement over
its span. -/
def applyTextChanges (src : List Char) (changes : List TextChange) : List Char :=
  applyChangesSorted src (List.insertionSort changeLe changes) 0

theorem foldl_append_visit (context : Context) (l : List Node)
    (acc : List TextChange) :
    l.foldl (fun acc child => acc ++ visit_program_child context child) acc =
      acc ++ (sourceStrs l).flatMap (fun s => visit_module_specifier s context) := by
  induction l generalizing acc with
  | nil => simp [sourceStrs]
  | cons child rest ih =>
    rw [List.foldl_cons, ih]
    cases child with
    | importDecl src =>
      rw [sourceStrs, List.flatMap_cons, visit_program_child, List.append_assoc]
    | exportAll src =>
      rw [sourceStrs, List.flatMap_cons, visit_program_child, List.append_assoc]
    | namedExport src =>
      cases src with
      | some s =>
        rw [sourceStrs, List.flatMap_cons, visit_program_child, List.append_assoc]
      | none => rw [sourceStrs, visit_program_child, List.append_nil]
    | moduleDecl body => rw [sourceStrs, visit_program_child, List.append_nil]
    | other => rw [sourceStrs, visit_program_child, List.append_nil]

/-- The change list is the concatenation, in module body order, of the changes
pushed for each top-level source string literal. -/
theorem get_changes_eq_flatMap (params : GetModuleSpecifierTextChangesParams) :
    get_module_specifier_text_changes params =
      (sourceStrs params.program).flatMap
        (fun s => visit_module_specifier s (mkContext params)) := by
  unfold get_module_specifier_text_changes
  simpa using foldl_append_visit (mkContext params) params.program []

/-- A visit pushes either nothing or exactly one change. -/
theorem visit_cases (s : Str) (context : Context) :
    visit_module_specifier s context = [] ∨
      ∃ c : TextChange, visit_module_specifier s context = [c] := by
  cases hres : context.module_graph.resolve_dependency s.value context.specifier with
  | none => exact Or.inl (by simp [visit_module_specifier, hres])
  | some spec =>
    refine Or.inr ⟨TextChange.mk (s.spanLo + 1) (s.spanHi - 1)
      (match lookupAssoc context.specifier_mappings spec with
        | some bare_specifier => bare_specifier
        | none =>
          get_relative_specifier context.output_file_path
            (context.mappings.get_file_path spec)), ?_⟩
    simp [visit_module_specifier, hres]

/-- Every change pushed for a literal spans exactly its quote interior. -/
theorem visit_spans (s : Str) (context : Context) :
    ∀ c ∈ visit_module_specifier s context,
      c.spanLo = s.spanLo + 1 ∧ c.spanHi = s.spanHi - 1 := by
  intro c hc
  unfold visit_module_specifier at hc
  cases hres : context.module_graph.resolve_dependency s.value context.specifier with
  | none => simp [hres] at hc
  | some spec =>
    simp only [hres] at hc
    rcases List.mem_singleton.mp hc with rfl
    exact ⟨rfl, rfl⟩

/-- Every change in the output comes from some top-level source literal and
spans that literal's quote interior. -/
theorem changes_spans (params : GetModuleSpecifierTextChangesParams) :
    ∀ c ∈ get_module_specifier_text_changes params,
      ∃ s ∈ sourceStrs params.program,
        c.spanLo = s.spanLo + 1 ∧ c.spanHi = s.spanHi - 1 := by
  intro c hc
  rw [get_changes_eq_flatMap] at hc
  rcases List.mem_flatMap.mp hc with ⟨s, hs, hcs⟩
  exact ⟨s, hs, visit_spans s (mkContext params) c hcs⟩

theorem pairwise_flatMap_of {α β : Type} (R : α → α → Prop) (S : β → β → Prop)
    (f : α → List β) (l : List α) (hl : l.Pairwise R)
    (hone : ∀ a, (f a).Pairwise S)
    (h : ∀ a b, R a b → ∀ x ∈ f a, ∀ y ∈ f b, S x y) :
    (l.flatMap f).Pairwise S := by
  induction l with
  | nil => simp
  | cons a rest ih =>
    rw [List.flatMap_cons, List.pairwise_append]
    refine ⟨hone a, ih hl.of_cons, ?_⟩
    intro x hx y hy
    rcases List.mem_flatMap.mp hy with ⟨b, hb, hyb⟩
    exact h a b (List.rel_of_pairwise_cons hl hb) x hx y hyb

/-- Under span well-formedness, the produced changes have pairwise disjoint
spans with strictly increasing start offsets. -/
theorem changes_strict_pairwise (params : GetModuleSpecifierTextChangesParams)
    (hwf : SpansWf (sourceStrs params.program)) :
    (get_module_specifier_text_changes params).Pairwise
      (fun c1 c2 => c1.spanHi ≤ c2.spanLo ∧ c1.spanLo < c2.spanLo) := by
  rw [get_changes_eq_flatMap]
  refine pairwise_flatMap_of (fun a b => StrWf a ∧ a.spanHi ≤ b.spanLo) _ _ _
    (hwf.2.imp_of_mem (fun ha _ hr => ⟨hwf.1 _ ha, hr⟩)) ?_ ?_
  · intro s
    rcases visit_cases s (mkContext params) with h | ⟨c, h⟩ <;> rw [h] <;> simp
  · intro a b hab x hx y hy
    obtain ⟨hxlo, hxhi⟩ := visit_spans a _ x hx
    obtain ⟨hylo, hyhi⟩ := visit_spans b _ y hy
    obtain ⟨hawf, hdisj⟩ := hab
    have hwfa : a.spanLo + 2 ≤ a.spanHi := hawf
    omega

theorem drop_eq_slice_append (src : List Char) (a b : Nat) (h : a ≤ b) :
    src.drop a = sliceL src a b ++ src.drop b := by
  unfold sliceL
  conv_lhs => rw [← List.take_append_drop (b - a) (src.drop a)]
  congr 1
  rw [List.drop_drop]
  congr 1
  omega

theorem sliceL_decompose (src : List Char) (a b c : Nat) (hab : a ≤ b)
    (hbc : b ≤ c) :
    sliceL src a c = sliceL src a b ++ sliceL src b c := by
  have hdrop := drop_eq_slice_append src a b hab
  show (src.drop a).take (c - a) = _
  rw [hdrop, List.take_append_eq_append_take]
  congr 1
  · show ((src.drop a).take (b - a)).take (c - a) = _
    rw [List.take_take]
    congr 1
    omega
  · by_cases hlen : b ≤ src.length
    · have : (sliceL src a b).length = b - a := by
        unfold sliceL
        rw [List.length_take, List.length_drop]
        omega
      rw [this]
      show (src.drop b).take (c - a - (b - a)) = (src.drop b).take (c - b)
      congr 1
      omega
    · have : src.drop b = [] := List.drop_eq_nil_of_le (by omega)
      show (src.drop b).take _ = (src.drop b).take _
      rw [this]
      simp

/-- Splicing changes whose spans all avoid the interval `[lo, hi)` keeps the
source slice `[lo, hi)` intact somewhere in the output. -/
theorem applyChangesSorted_preserves (src : List Char) (lo hi : Nat)
    (cs : List TextChange) :
    ∀ pos, pos ≤ lo → lo ≤ hi →
    (∀ c ∈ cs, c.spanHi ≤ lo ∨ hi ≤ c.spanLo) →
    ∃ pre post,
      applyChangesSorted src cs pos = pre ++ sliceL src lo hi ++ post := by
  induction cs with
  | nil =>
    intro pos hpos hlohi _
    refine ⟨sliceL src pos lo, src.drop hi, ?_⟩
    show src.drop pos = _
    rw [drop_eq_slice_append src pos lo hpos, drop_eq_slice_append src lo hi hlohi,
      List.append_assoc]
  | cons c rest ih =>
    intro pos hpos hlohi hdisj
    rcases hdisj c (List.mem_cons_self c rest) with hc | hc
    · obtain ⟨pre, post, hrec⟩ := ih c.spanHi hc hlohi
        (fun c' hc' => hdisj c' (List.mem_cons_of_mem c hc'))
      refine ⟨sliceL src pos c.spanLo ++ c.new_text.toList ++ pre, post, ?_⟩
      show sliceL src pos c.spanLo ++ c.new_text.toList ++
          applyChangesSorted src rest c.spanHi = _
      rw [hrec]
      simp [List.append_assoc]
    · refine ⟨sliceL src pos lo,
        sliceL src hi c.spanLo ++ c.new_text.toList ++
          applyChangesSorted src rest c.spanHi, ?_⟩
      show sliceL src pos c.spanLo ++ c.new_text.toList ++
          applyChangesSorted src rest c.spanHi = _
      rw [sliceL_decompose src pos lo c.spanLo hpos (le_trans hlohi hc),
        sliceL_decompose src lo hi c.spanLo hlohi hc]
      simp [List.append_assoc]

/-- Two sorted change lists that are permutations of each other and have
pairwise distinct start offsets are equal. -/
theorem sorted_nodup_changes_eq (l1 l2 : List TextChange)
    (hperm : l1.Perm l2)
    (hs1 : l1.Sorted changeLe) (hs2 : l2.Sorted changeLe)
    (hnd : (l1.map TextChange.spanLo).Nodup) :
    l1 = l2 := by
  have hnd2 : (l2.map TextChange.spanLo).Nodup :=
    (hperm.map TextChange.spanLo).nodup_iff.mp hnd
  have key : ∀ l : List TextChange, l.Sorted changeLe →
      (l.map TextChange.spanLo).Nodup → l.Sorted changeLt := by
    intro l hs hn
    have hpw : l.Pairwise (fun a b => a.spanLo ≠ b.spanLo) :=
      (List.pairwise_map.mp hn).imp (fun h => h)
    exact List.Pairwise.imp₂ (fun a b hle hne => Nat.lt_of_le_of_ne hle hne) hs hpw
  exact List.eq_of_perm_of_sorted (r := changeLt) hperm (key l1 hs1 hnd)
    (key l2 hs2 hnd2)

/-- The replacement text computed by `visit_module_specifier` for a resolved
target `specifier`: the bare mapped specifier when the specifier-mapping table
has an entry, otherwise the relative path between output file paths. -/
def visit_new_text (context : Context) (specifier : String) : String :=
  match lookupAssoc context.specifier_mappings specifier with
  | some bare_specifier => bare_specifier
  | none =>
    get_relative_specifier context.output_file_path
      (context.mappings.get_file_path specifier)

/-- When resolution succeeds, the visit pushes exactly one change, spanning
the literal's quote interior, carrying the computed replacement text. -/
theorem visit_eq_of_some (s : Str) (context : Context) (spec : String)
    (hres : context.module_graph.resolve_dependency s.value context.specifier =
      some spec) :
    visit_module_specifier s context =
      [{ spanLo := s.spanLo + 1, spanHi := s.spanHi - 1,
         new_text := visit_new_text context spec }] := by
  simp [visit_module_specifier, visit_new_text, hres]

/-- When every literal resolves, the flatMap over visits yields one change per
literal, in order, each spanning its literal's quote interior. -/
theorem flatMap_visit_map_spans (context : Context) (l : List Str)
    (hres : ∀ s ∈ l,
      (context.module_graph.resolve_dependency s.value context.specifier).isSome) :
    (l.flatMap (fun s => visit_module_specifier s context)).map
        (fun c => (c.spanLo, c.spanHi)) =
      l.map (fun s => (s.spanLo + 1, s.spanHi - 1)) := by
  induction l with
  | nil => simp
  | cons s rest ih =>
    obtain ⟨spec, hspec⟩ := Option.isSome_iff_exists.mp
      (hres s (List.mem_cons_self s rest))
    rw [List.flatMap_cons, visit_eq_of_some s context spec hspec]
    simpa using ih (fun t ht => hres t (List.mem_cons_of_mem s ht))

/-- C1: for a parsed module whose top-level import/export-with-source literals
all resolve through the module graph, `get_module_specifier_text_changes`
returns exactly one `TextChange` per such literal, in module body order (the
i-th change spans the i-th literal's quote interior), and the spans of
distinct changes do not overlap. -/
theorem C1_all_resolved_one_change_per_node
    (params : GetModuleSpecifierTextChangesParams)
    (hres : ∀ s ∈ sourceStrs params.program,
      (params.module_graph.resolve_dependency s.value params.specifier).isSome)
    (hwf : SpansWf (sourceStrs params.program)) :
    (get_module_specifier_text_changes params).length =
        (sourceStrs params.program).length ∧
      (get_module_specifier_text_changes params).map
          (fun c => (c.spanLo, c.spanHi)) =
        (sourceStrs params.program).map
          (fun s => (s.spanLo + 1, s.spanHi - 1)) ∧
      (get_module_specifier_text_changes params).Pairwise
        (fun c1 c2 => c1.spanHi ≤ c2.spanLo) := by
  have hmap : (get_module_specifier_text_changes params).map
      (fun c => (c.spanLo, c.spanHi)) =
      (sourceStrs params.program).map (fun s => (s.spanLo + 1, s.spanHi - 1)) := by
    rw [get_changes_eq_flatMap]
    exact flatMap_visit_map_spans (mkContext params) (sourceStrs params.program) hres
  refine ⟨?_, hmap, (changes_strict_pairwise params hwf).imp (fun h => h.1)⟩
  have := congrArg List.length hmap
  simpa using this

/-- Sample inputs used by the closed witness theorems below. -/
def sampleGraph : ModuleGraph :=
  { resolve_dependency := fun value _ =>
      if value = "./lib.ts" then some "file:///lib.ts"
      else if value = "./util.ts" then some "file:///util.ts"
      else none }

def sampleMappings : Mappings :=
  { get_file_path := fun s =>
      if s = "file:///mod.ts" then ["mod.js"]
      else if s = "file:///lib.ts" then ["lib.js"]
      else ["util.js"] }

def sampleParams : GetModuleSpecifierTextChangesParams :=
  { specifier := "file:///mod.ts"
    module_graph := sampleGraph
    mappings := sampleMappings
    program :=
      [Node.importDecl { spanLo := 0, spanHi := 10, value := "./lib.ts" },
       Node.other,
       Node.exportAll { spanLo := 20, spanHi := 32, value := "./util.ts" }]
    specifier_mappings := [] }

/-- Witness for C1 at a concrete two-import module. -/
theorem C1_witness :
    (get_module_specifier_text_changes sampleParams).length =
        (sourceStrs sampleParams.program).length ∧
      (get_module_specifier_text_changes sampleParams).map
          (fun c => (c.spanLo, c.spanHi)) =
        (sourceStrs sampleParams.program).map
          (fun s => (s.spanLo + 1, s.spanHi - 1)) ∧
      (get_module_specifier_text_changes sampleParams).Pairwise
        (fun c1 c2 => c1.spanHi ≤ c2.spanLo) :=
  C1_all_resolved_one_change_per_node sampleParams (by decide)
    (by unfold SpansWf StrWf; exact ⟨by decide, by decide⟩)

/-- C3: when a replacement is produced, the emitted change's span covers
exactly the characters strictly between the opening and closing quote (start
= literal start + 1, end = literal end - 1), and neither quote position
(`spanLo` and `spanHi - 1` of the literal) lies inside the span. -/
theorem C3_span_is_quote_interior (s : Str) (context : Context) (spec : String)
    (hres : context.module_graph.resolve_dependency s.value context.specifier =
      some spec)
    (hwf : StrWf s) :
    ∃ c : TextChange, visit_module_specifier s context = [c] ∧
      c.spanLo = s.spanLo + 1 ∧ c.spanHi = s.spanHi - 1 ∧
      ¬(c.spanLo ≤ s.spanLo ∧ s.spanLo < c.spanHi) ∧
      ¬(c.spanLo ≤ s.spanHi - 1 ∧ s.spanHi - 1 < c.spanHi) := by
  have hwf' : s.spanLo + 2 ≤ s.spanHi := hwf
  refine ⟨{ spanLo := s.spanLo + 1, spanHi := s.spanHi - 1,
            new_text := visit_new_text context spec },
    visit_eq_of_some s context spec hres, rfl, rfl, ?_, ?_⟩ <;> simp

/-- Witness for C3. -/
theorem C3_witness :
    ∃ c : TextChange,
      visit_module_specifier { spanLo := 0, spanHi := 10, value := "./lib.ts" }
          (mkContext sampleParams) = [c] ∧
        c.spanLo = 0 + 1 ∧ c.spanHi = 10 - 1 ∧
        ¬(c.spanLo ≤ 0 ∧ 0 < c.spanHi) ∧
        ¬(c.spanLo ≤ 10 - 1 ∧ 10 - 1 < c.spanHi) :=
  C3_span_is_quote_interior { spanLo := 0, spanHi := 10, value := "./lib.ts" }
    (mkContext sampleParams) "file:///lib.ts" (by decide)
    (by unfold StrWf; decide)

/-- Structure `MappedSpecifier` (from the test builder): a bare package name, an
optional semantic version and an optional sub-path. -/
structure MappedSpecifier where
  name : String
  version : Option String
  sub_path : Option String
deriving DecidableEq, Repr

/-- Modelled from the spec: the bare specifier string the transform stores in
the visitor's specifier-mapping table for a `MappedSpecifier` (the code
assembling that table is outside the embedded files) — "emit `name` or
`name/subpath` (version is never emitted into source text)". -/
def mapped_specifier_text (m : MappedSpecifier) : String :=
  match m.sub_path with
  | none => m.name
  | some p => m.name ++ "/" ++ p

/-- C4: when the resolved target has an entry in the specifier-mapping table,
the emitted replacement text is exactly the bare reference (name, or
name/subpath), and that text is independent of the mapped specifier's
version. -/
theorem C4_bare_reference_no_version (s : Str) (context : Context)
    (spec : String) (m : MappedSpecifier)
    (hres : context.module_graph.resolve_dependency s.value context.specifier =
      some spec)
    (hmap : lookupAssoc context.specifier_mappings spec =
      some (mapped_specifier_text m)) :
    visit_module_specifier s context =
        [{ spanLo := s.spanLo + 1, spanHi := s.spanHi - 1,
           new_text := mapped_specifier_text m }] ∧
      ∀ v : Option String,
        mapped_specifier_text { m with version := v } =
          mapped_specifier_text m := by
  constructor
  · rw [visit_eq_of_some s context spec hres]
    simp [visit_new_text, hmap]
  · intro v
    cases m with
    | mk name version sub_path => cases sub_path <;> rfl

/-- Parameters with a mapped remote specifier, for the C4 witness. -/
def sampleMappedParams : GetModuleSpecifierTextChangesParams :=
  { specifier := "file:///mod.ts"
    module_graph :=
      { resolve_dependency := fun value _ =>
          if value = "https://example.com/lib.ts" then
            some "https://example.com/lib.ts"
          else none }
    mappings := sampleMappings
    program :=
      [Node.importDecl
        { spanLo := 7, spanHi := 35, value := "https://example.com/lib.ts" }]
    specifier_mappings := [("https://example.com/lib.ts", "my-lib")] }

/-- Witness for C4: a mapped specifier with name `my-lib`, version `^1.0.0`,
no subpath, is emitted as exactly `my-lib`. -/
theorem C4_witness :
    visit_module_specifier
        { spanLo := 7, spanHi := 35, value := "https://example.com/lib.ts" }
        (mkContext sampleMappedParams) =
      [{ spanLo := 8, spanHi := 34,
         new_text := mapped_specifier_text
           { name := "my-lib", version := some "^1.0.0", sub_path := none } }] ∧
    ∀ v : Option String,
      mapped_specifier_text
          { name := "my-lib", version := v, sub_path := none } =
        mapped_specifier_text
          { name := "my-lib", version := some "^1.0.0", sub_path := none } :=
  C4_bare_reference_no_version
    { spanLo := 7, spanHi := 35, value := "https://example.com/lib.ts" }
    (mkContext sampleMappedParams) "https://example.com/lib.ts"
    { name := "my-lib", version := some "^1.0.0", sub_path := none }
    (by decide) (by decide)

/-- C8: the visitor emits changes only for top-level import declarations,
export-all declarations and named re-exports carrying a source string: the
whole output is the concatenation of the visits of exactly those literals,
and a named re-export without a source, a namespace/module declaration
(regardless of the import/export forms nested in its body), and any other
child each contribute no change. -/
theorem C8_frame_only_source_nodes
    (params : GetModuleSpecifierTextChangesParams) :
    get_module_specifier_text_changes params =
        (sourceStrs params.program).flatMap
          (fun s => visit_module_specifier s (mkContext params)) ∧
      (∀ context : Context,
        visit_program_child context (Node.namedExport none) = []) ∧
      (∀ (context : Context) (body : List Node),
        visit_program_child context (Node.moduleDecl body) = []) ∧
      (∀ context : Context, visit_program_child context Node.other = []) :=
  ⟨get_changes_eq_flatMap params, fun _ => rfl, fun _ _ => rfl, fun _ => rfl⟩

theorem moduleGraph_ext (g1 g2 : ModuleGraph)
    (h : g1.resolve_dependency = g2.resolve_dependency) : g1 = g2 := by
  cases g1
  cases g2
  exact congrArg ModuleGraph.mk h

theorem mappings_ext (m1 m2 : Mappings)
    (h : m1.get_file_path = m2.get_file_path) : m1 = m2 := by
  cases m1
  cases m2
  exact congrArg Mappings.mk h

/-- C9: the visitor is deterministic — two runs over observably identical
inputs (same containing specifier, same resolution results, same output file
paths, same program, same specifier mappings) produce equal change lists, and
hence byte-identical rewritten text for every source. -/
theorem C9_deterministic (p1 p2 : GetModuleSpecifierTextChangesParams)
    (hspec : p1.specifier = p2.specifier)
    (hres : ∀ value containing,
      p1.module_graph.resolve_dependency value containing =
        p2.module_graph.resolve_dependency value containing)
    (hmap : ∀ s, p1.mappings.get_file_path s = p2.mappings.get_file_path s)
    (hprog : p1.program = p2.program)
    (hsm : p1.specifier_mappings = p2.specifier_mappings) :
    get_module_specifier_text_changes p1 = get_module_specifier_text_changes p2 ∧
      ∀ src : List Char,
        applyTextChanges src (get_module_specifier_text_changes p1) =
          applyTextChanges src (get_module_specifier_text_changes p2) := by
  have hg : p1.module_graph = p2.module_graph :=
    moduleGraph_ext _ _ (funext (fun v => funext (fun c => hres v c)))
  have hmp : p1.mappings = p2.mappings :=
    mappings_ext _ _ (funext (fun s => hmap s))
  have hpp : p1 = p2 := by
    cases p1 with
    | mk s1 g1 m1 pr1 sm1 =>
      cases p2 with
      | mk s2 g2 m2 pr2 sm2 =>
        simp only [GetModuleSpecifierTextChangesParams.mk.injEq]
        exact ⟨hspec, hg, hmp, hprog, hsm⟩
  rw [hpp]
  exact ⟨rfl, fun _ => rfl⟩

/-- Witness for C9: two textually identical runs over the sample module agree. -/
theorem C9_witness :
    get_module_specifier_text_changes sampleParams =
        get_module_specifier_text_changes sampleParams ∧
      ∀ src : List Char,
        applyTextChanges src (get_module_specifier_text_changes sampleParams) =
          applyTextChanges src (get_module_specifier_text_changes sampleParams) :=
  C9_deterministic sampleParams sampleParams rfl (fun _ _ => rfl) (fun _ => rfl)
    rfl rfl

/-- Changes produced for the other literals of a well-formed module never
touch the span of a literal whose resolution failed. -/
theorem flatMap_visit_disjoint (context : Context) (l : List Str) (s : Str)
    (hs : s ∈ l)
    (hnone : context.module_graph.resolve_dependency s.value context.specifier =
      none)
    (hpw : l.Pairwise (fun a b => a.spanHi ≤ b.spanLo)) :
    ∀ c ∈ l.flatMap (fun t => visit_module_specifier t context),
      c.spanHi ≤ s.spanLo ∨ s.spanHi ≤ c.spanLo := by
  induction l with
  | nil => simp
  | cons t rest ih =>
    intro c hc
    rw [List.flatMap_cons, List.mem_append] at hc
    rcases hc with hct | hcr
    · obtain ⟨hclo, hchi⟩ := visit_spans t context c hct
      rcases List.mem_cons.mp hs with rfl | hs'
      · exfalso
        have hnil : visit_module_specifier s context = [] := by
          simp [visit_module_specifier, hnone]
        rw [hnil] at hct
        exact absurd hct (List.not_mem_nil c)
      · have hts : t.spanHi ≤ s.spanLo := List.rel_of_pairwise_cons hpw hs'
        left
        omega
    · rcases List.mem_cons.mp hs with rfl | hs'
      · rcases List.mem_flatMap.mp hcr with ⟨u, hu, hcu⟩
        obtain ⟨hclo, hchi⟩ := visit_spans u context c hcu
        have hsu : s.spanHi ≤ u.spanLo := List.rel_of_pairwise_cons hpw hu
        right
        omega
      · exact ih hs' hpw.of_cons c hcr

/-- C2: for a source string literal the graph cannot resolve, the visit emits
zero changes, and the rewritten output still contains the original literal's
bytes (quotes included) intact: the applied result decomposes around the
untouched slice `[spanLo, spanHi)` of the original source. -/
theorem C2_unresolved_left_untouched
    (params : GetModuleSpecifierTextChangesParams) (s : Str)
    (hs : s ∈ sourceStrs params.program)
    (hnone : params.module_graph.resolve_dependency s.value params.specifier =
      none)
    (hwf : SpansWf (sourceStrs params.program)) (src : List Char) :
    visit_module_specifier s (mkContext params) = [] ∧
      ∃ pre post,
        applyTextChanges src (get_module_specifier_text_changes params) =
          pre ++ sliceL src s.spanLo s.spanHi ++ post := by
  have hnone' : (mkContext params).module_graph.resolve_dependency s.value
      (mkContext params).specifier = none := hnone
  constructor
  · simp [visit_module_specifier, hnone']
  · have hdisj : ∀ c ∈ get_module_specifier_text_changes params,
        c.spanHi ≤ s.spanLo ∨ s.spanHi ≤ c.spanLo := by
      rw [get_changes_eq_flatMap]
      exact flatMap_visit_disjoint (mkContext params) _ s hs hnone' hwf.2
    have hdisj' : ∀ c ∈ List.insertionSort changeLe
        (get_module_specifier_text_changes params),
        c.spanHi ≤ s.spanLo ∨ s.spanHi ≤ c.spanLo :=
      fun c hc => hdisj c
        ((List.perm_insertionSort changeLe _).mem_iff.mp hc)
    have hlohi : s.spanLo ≤ s.spanHi := by
      have := hwf.1 s hs
      unfold StrWf at this
      omega
    obtain ⟨pre, post, h⟩ := applyChangesSorted_preserves src s.spanLo s.spanHi
      (List.insertionSort changeLe (get_module_specifier_text_changes params))
      0 (Nat.zero_le _) hlohi hdisj'
    exact ⟨pre, post, h⟩

/-- Parameters with one resolving and one unresolved literal, for the C2
witness. -/
def sampleUnresolvedParams : GetModuleSpecifierTextChangesParams :=
  { specifier := "file:///mod.ts"
    module_graph := sampleGraph
    mappings := sampleMappings
    program :=
      [Node.importDecl { spanLo := 0, spanHi := 10, value := "./lib.ts" },
       Node.importDecl { spanLo := 20, spanHi := 33, value := "node:path" }]
    specifier_mappings := [] }

/-- Witness for C2 at the unresolved literal `node:path`. -/
theorem C2_witness :
    visit_module_specifier { spanLo := 20, spanHi := 33, value := "node:path" }
        (mkContext sampleUnresolvedParams) = [] ∧
      ∃ pre post,
        applyTextChanges (List.replicate 40 'x')
            (get_module_specifier_text_changes sampleUnresolvedParams) =
          pre ++ sliceL (List.replicate 40 'x') 20 33 ++ post :=
  C2_unresolved_left_untouched sampleUnresolvedParams
    { spanLo := 20, spanHi := 33, value := "node:path" } (by decide) (by decide)
    (by unfold SpansWf StrWf; exact ⟨by decide, by decide⟩)
    (List.replicate 40 'x')

/-- C6: within one module the produced changes are pairwise non-overlapping,
and applying them is order-independent: any permutation of the change list,
after the apply step's sort by start offset, yields the same final text. -/
theorem C6_nonoverlapping_order_independent
    (params : GetModuleSpecifierTextChangesParams)
    (hwf : SpansWf (sourceStrs params.program)) :
    (get_module_specifier_text_changes params).Pairwise
        (fun c1 c2 => c1.spanHi ≤ c2.spanLo) ∧
      ∀ cs' : List TextChange,
        cs'.Perm (get_module_specifier_text_changes params) →
        ∀ src : List Char,
          applyTextChanges src cs' =
            applyTextChanges src (get_module_specifier_text_changes params) := by
  have hstrict := changes_strict_pairwise params hwf
  refine ⟨hstrict.imp (fun h => h.1), ?_⟩
  intro cs' hperm src
  have hnd : ((get_module_specifier_text_changes params).map
      TextChange.spanLo).Nodup :=
    List.pairwise_map.mpr ((hstrict.imp (fun h => h.2)).imp
      (fun h => Nat.ne_of_lt h))
  have hsorted_eq : List.insertionSort changeLe cs' =
      List.insertionSort changeLe (get_module_specifier_text_changes params) := by
    apply sorted_nodup_changes_eq
    · exact ((List.perm_insertionSort changeLe cs').trans hperm).trans
        (List.perm_insertionSort changeLe _).symm
    · exact List.sorted_insertionSort changeLe cs'
    · exact List.sorted_insertionSort changeLe _
    · have hperm2 : List.Perm
          ((List.insertionSort changeLe cs').map TextChange.spanLo)
          ((get_module_specifier_text_changes params).map TextChange.spanLo) :=
        ((List.perm_insertionSort changeLe cs').trans hperm).map _
      exact hperm2.nodup_iff.mpr hnd
  unfold applyTextChanges
  rw [hsorted_eq]

/-- Witness for C6 at the sample module. -/
theorem C6_witness :
    (get_module_specifier_text_changes sampleParams).Pairwise
        (fun c1 c2 => c1.spanHi ≤ c2.spanLo) ∧
      ∀ cs' : List TextChange,
        cs'.Perm (get_module_specifier_text_changes sampleParams) →
        ∀ src : List Char,
          applyTextChanges src cs' =
            applyTextChanges src
              (get_module_specifier_text_changes sampleParams) :=
  C6_nonoverlapping_order_independent sampleParams
    (by unfold SpansWf StrWf; exact ⟨by decide, by decide⟩)

theorem joinSlash_cons_ne (x : String) (l : List String) (h : l ≠ []) :
    joinSlash (x :: l) = x ++ "/" ++ joinSlash l := by
  cases l with
  | nil => exact absurd rfl h
  | cons y ys => rfl

theorem stripCommon_spec (a : List String) :
    ∀ b : List String, ∃ c : List String,
      a = c ++ (stripCommon a b).1 ∧ b = c ++ (stripCommon a b).2 := by
  induction a with
  | nil =>
    intro b
    exact ⟨[], by simp [stripCommon], by simp [stripCommon]⟩
  | cons x xs ih =>
    intro b
    cases b with
    | nil => exact ⟨[], by simp [stripCommon], by simp [stripCommon]⟩
    | cons y ys =>
      by_cases hxy : x = y
      · subst hxy
        obtain ⟨c, h1, h2⟩ := ih ys
        refine ⟨x :: c, ?_, ?_⟩
        · show x :: xs = x :: c ++ (stripCommon (x :: xs) (x :: ys)).1
          simp [stripCommon]
          exact h1
        · show x :: ys = x :: c ++ (stripCommon (x :: xs) (x :: ys)).2
          simp [stripCommon]
          exact h2
      · refine ⟨[], ?_, ?_⟩
        · simp [stripCommon, hxy]
        · simp [stripCommon, hxy]

/-- Resolve a relative path, given as up-hop count plus descending segments,
against the directory of `fromPath`: remove the hopped directories, then
append the segments. -/
def resolveRelParts (fromPath : List String) (parts : Nat × List String) :
    List String :=
  fromPath.dropLast.take (fromPath.dropLast.length - parts.1) ++ parts.2

/-- The relative path computed between two output file paths resolves back to
exactly the target path. -/
theorem relParts_roundtrip (fromPath toPath : List String) (hto : toPath ≠ []) :
    resolveRelParts fromPath (relParts fromPath toPath) = toPath := by
  rcases List.eq_nil_or_concat toPath with rfl | ⟨init, last, rfl⟩
  · exact absurd rfl hto
  · rw [List.concat_eq_append]
    obtain ⟨c, h1, h2⟩ := stripCommon_spec fromPath.dropLast
      (init ++ [last]).dropLast
    rw [List.dropLast_concat] at h1 h2
    have hlast : (init ++ [last]).getLastD "" = last := by
      rw [List.getLastD_eq_getLast?, List.getLast?_concat]
      rfl
    unfold resolveRelParts relParts
    rw [List.dropLast_concat, hlast]
    generalize hst : stripCommon fromPath.dropLast init = st at h1 h2 ⊢
    obtain ⟨r1, r2⟩ := st
    dsimp only at h1 h2 ⊢
    rw [h1, h2]
    have hlen : (c ++ r1).length - r1.length = c.length := by simp
    rw [hlen, List.take_left]
    simp [List.append_assoc]

/-- The emitted relative specifier always begins with `./` or `../`. -/
theorem get_relative_specifier_head (fromPath toPath : List String) :
    ∃ r : String,
      get_relative_specifier fromPath toPath = "./" ++ r ∨
        get_relative_specifier fromPath toPath = "../" ++ r := by
  unfold get_relative_specifier
  by_cases h : (relParts fromPath toPath).1 = 0
  · rw [if_pos h]
    exact ⟨joinSlash (relParts fromPath toPath).2, Or.inl rfl⟩
  · rw [if_neg h]
    obtain ⟨n, hn⟩ : ∃ n, (relParts fromPath toPath).1 = n + 1 :=
      ⟨(relParts fromPath toPath).1 - 1, by omega⟩
    rw [hn, List.replicate_succ, List.cons_append]
    have hne : List.replicate n ".." ++ (relParts fromPath toPath).2 ≠ [] := by
      have h2 : (relParts fromPath toPath).2 ≠ [] := by
        simp [relParts]
      intro hcontra
      exact h2 (List.append_eq_nil.mp hcontra).2
    rw [joinSlash_cons_ne _ _ hne]
    exact ⟨joinSlash (List.replicate n ".." ++ (relParts fromPath toPath).2),
      Or.inr rfl⟩

/-- C5: for a resolved target with no specifier-mapping entry, the emitted
replacement is the relative path from the containing module's output file
path to the target's output file path: it begins with `./` or `../` (with `/`
separators throughout, by construction of `joinSlash`), and resolving it
against the containing output path yields exactly the target's output path. -/
theorem C5_relative_path_roundtrip (s : Str) (context : Context) (spec : String)
    (hres : context.module_graph.resolve_dependency s.value context.specifier =
      some spec)
    (hmap : lookupAssoc context.specifier_mappings spec = none)
    (hto : context.mappings.get_file_path spec ≠ []) :
    visit_module_specifier s context =
        [{ spanLo := s.spanLo + 1, spanHi := s.spanHi - 1,
           new_text := get_relative_specifier context.output_file_path
             (context.mappings.get_file_path spec) }] ∧
      (∃ r : String,
        get_relative_specifier context.output_file_path
            (context.mappings.get_file_path spec) = "./" ++ r ∨
          get_relative_specifier context.output_file_path
            (context.mappings.get_file_path spec) = "../" ++ r) ∧
      resolveRelParts context.output_file_path
          (relParts context.output_file_path
            (context.mappings.get_file_path spec)) =
        context.mappings.get_file_path spec := by
  refine ⟨?_, get_relative_specifier_head _ _, relParts_roundtrip _ _ hto⟩
  rw [visit_eq_of_some s context spec hres]
  simp [visit_new_text, hmap]

/-- Witness for C5: importing `./util.ts` from a nested module emits
`../util.js`. -/
def sampleNestedParams : GetModuleSpecifierTextChangesParams :=
  { specifier := "file:///sub/mod.ts"
    module_graph :=
      { resolve_dependency := fun value _ =>
          if value = "../util.ts" then some "file:///util.ts" else none }
    mappings :=
      { get_file_path := fun s =>
          if s = "file:///sub/mod.ts" then ["sub", "mod.js"]
          else ["util.js"] }
    program :=
      [Node.importDecl { spanLo := 7, spanHi := 19, value := "../util.ts" }]
    specifier_mappings := [] }

theorem C5_witness :
    visit_module_specifier { spanLo := 7, spanHi := 19, value := "../util.ts" }
        (mkContext sampleNestedParams) =
        [{ spanLo := 8, spanHi := 18,
           new_text := get_relative_specifier
             (mkContext sampleNestedParams).output_file_path
             ((mkContext sampleNestedParams).mappings.get_file_path
               "file:///util.ts") }] ∧
      (∃ r : String,
        get_relative_specifier (mkContext sampleNestedParams).output_file_path
            ((mkContext sampleNestedParams).mappings.get_file_path
              "file:///util.ts") = "./" ++ r ∨
          get_relative_specifier (mkContext sampleNestedParams).output_file_path
            ((mkContext sampleNestedParams).mappings.get_file_path
              "file:///util.ts") = "../" ++ r) ∧
      resolveRelParts (mkContext sampleNestedParams).output_file_path
          (relParts (mkContext sampleNestedParams).output_file_path
            ((mkContext sampleNestedParams).mappings.get_file_path
              "file:///util.ts")) =
        (mkContext sampleNestedParams).mappings.get_file_path
          "file:///util.ts" :=
  C5_relative_path_roundtrip
    { spanLo := 7, spanHi := 19, value := "../util.ts" }
    (mkContext sampleNestedParams) "file:///util.ts"
    (by decide) (by decide) (by decide)

/-- Modelled from the spec: redirect-chain following during graph
construction (crate `graph`, outside the embedded files) — "chains of
redirects collapse to one canonical target"; the fuel bounds the walk, and
the spec's no-cycle invariant guarantees a terminating chain. -/
def followRedirects (redirects : List (String × String)) :
    Nat → String → String
  | 0, s => s
  | fuel + 1, s =>
    match lookupAssoc redirects s with
    | none => s
    | some t => followRedirects redirects fuel t

/-- Modelled from the spec: `ModuleGraph::resolve_dependency` "must apply
redirects transitively so the returned specifier is always the final
canonical one, never an intermediate redirect hop"; `baseResolve` stands for
the pre-redirect resolution of the raw specifier text against the containing
module. -/
def resolve_dependency_model (baseResolve : String → String → Option String)
    (redirects : List (String × String)) (raw containing : String) :
    Option String :=
  (baseResolve raw containing).map
    (followRedirects redirects redirects.length)

/-- C7: when the raw specifier resolves to `a` and the redirect chain from
`a` terminates (the spec's no-cycle invariant), resolution returns the final
canonical target of the chain: a specifier with no redirect entry, hence
distinct from `a` and from every intermediate hop (all of which have redirect
entries). -/
theorem C7_redirect_transparency
    (baseResolve : String → String → Option String)
    (redirects : List (String × String)) (raw containing a : String)
    (hbase : baseResolve raw containing = some a)
    (hterm : lookupAssoc redirects
      (followRedirects redirects redirects.length a) = none) :
    ∃ b : String,
      resolve_dependency_model baseResolve redirects raw containing = some b ∧
        b = followRedirects redirects redirects.length a ∧
        lookupAssoc redirects b = none ∧
        ∀ hop t : String, lookupAssoc redirects hop = some t → b ≠ hop := by
  refine ⟨followRedirects redirects redirects.length a, ?_, rfl, hterm, ?_⟩
  · unfold resolve_dependency_model
    rw [hbase]
    rfl
  · intro hop t hhop hcontra
    rw [hcontra, hhop] at hterm
    exact Option.noConfusion hterm

/-- Witness for C7: `a.ts` redirects to `c.ts`, which redirects to `b.ts`;
resolution of a raw specifier for `a.ts` returns `b.ts`, never `a.ts` or the
intermediate hop `c.ts`. -/
theorem C7_witness :
    ∃ b : String,
      resolve_dependency_model
          (fun raw _ => if raw = "https://x.com/a.ts" then
            some "https://x.com/a.ts" else none)
          [("https://x.com/a.ts", "https://x.com/c.ts"),
           ("https://x.com/c.ts", "https://x.com/b.ts")]
          "https://x.com/a.ts" "file:///mod.ts" = some b ∧
        b = followRedirects
          [("https://x.com/a.ts", "https://x.com/c.ts"),
           ("https://x.com/c.ts", "https://x.com/b.ts")] 2 "https://x.com/a.ts" ∧
        lookupAssoc
          [("https://x.com/a.ts", "https://x.com/c.ts"),
           ("https://x.com/c.ts", "https://x.com/b.ts")] b = none ∧
        ∀ hop t : String,
          lookupAssoc
            [("https://x.com/a.ts", "https://x.com/c.ts"),
             ("https://x.com/c.ts", "https://x.com/b.ts")] hop = some t →
          b ≠ hop :=
  C7_redirect_transparency
    (fun raw _ => if raw = "https://x.com/a.ts" then
      some "https://x.com/a.ts" else none)
    [("https://x.com/a.ts", "https://x.com/c.ts"),
     ("https://x.com/c.ts", "https://x.com/b.ts")]
    "https://x.com/a.ts" "file:///mod.ts" "https://x.com/a.ts"
    (by decide) (by decide)

/-- Structure `GlobalName` (as constructed by the test builder): a global identifier
name, an optional distinct export name, and a type-only flag. -/
structure GlobalName where
  name : String
  export_name : Option String
  type_only : Bool
deriving DecidableEq, Repr

/-- Structure `Shim`: a backing package (a `MappedSpecifier`) together with the global
names it provides. -/
structure Shim where
  package : MappedSpecifier
  global_names : List GlobalName
deriving DecidableEq, Repr

/-- Modelled from the spec: the test harness's in-memory `Loader` (outside
the embedded files); its contents are irrelevant to the builder methods
verified here, so it is opaque. -/
structure InMemoryLoader

/-- Structure `TestBuilder`: the accumulated test configuration (hash maps modelled as
association lists). -/
structure TestBuilder where
  loader : InMemoryLoader
  entry_point : String
  additional_entry_points : List String
  test_entry_points : List String
  specifier_mappings : List (String × MappedSpecifier)
  redirects : List (String × String)
  shims : List Shim
  test_shims : List Shim

/-- Method `TestBuilder::new`: default entry point `file:///mod.ts`, everything else
empty. -/
def TestBuilder.new : TestBuilder :=
  { loader := ⟨⟩
    entry_point := "file:///mod.ts"
    additional_entry_points := []
    test_entry_points := []
    specifier_mappings := []
    redirects := []
    shims := []
    test_shims := [] }

/-- Call `ModuleSpecifier::parse(s).unwrap()`: URL parsing is the external `url`
crate, modelled as a caller-supplied partial `parse`; `unwrap`'s panic on a
failed parse is modelled as `Except.error`. -/
def parseOrPanic (parse : String → Option String) (s : String) :
    Except String String :=
  match parse s with
  | some m => Except.ok m
  | none => Except.error ("ModuleSpecifier::parse unwrap panicked on: " ++ s)

/-- Operation `HashMap::insert`: replace any existing binding for the key. -/
def insertAssoc {α : Type} (m : List (String × α)) (k : String) (v : α) :
    List (String × α) :=
  (k, v) :: m.filter (fun p => p.1 != k)

/-- Method `TestBuilder::add_specifier_mapping`: parse the specifier (unwrap —
panics on an unparseable input) and insert the `MappedSpecifier` built from
the bare specifier, version and path. -/
def TestBuilder.add_specifier_mapping (parse : String → Option String)
    (b : TestBuilder) (specifier bare_specifier : String)
    (version path : Option String) : Except String TestBuilder := do
  let key ← parseOrPanic parse specifier
  Except.ok { b with
    specifier_mappings := insertAssoc b.specifier_mappings key
      { name := bare_specifier, version := version, sub_path := path } }

/-- Method `TestBuilder::add_redirect`: parse both endpoints (unwrap — panics on
either unparseable input) and insert the redirect. -/
def TestBuilder.add_redirect (parse : String → Option String)
    (b : TestBuilder) (from_spec to_spec : String) :
    Except String TestBuilder := do
  let k ← parseOrPanic parse from_spec
  let v ← parseOrPanic parse to_spec
  Except.ok { b with redirects := insertAssoc b.redirects k v }

/-- The entry-point parsing prefix of `TestBuilder::transform`: parse the
stored entry point, the additional entry points and the test entry points,
each via unwrap (the rest of `transform` hands the parsed specifiers to the
transform crate, outside the embedded files). -/
def TestBuilder.transform_parse_entry_points
    (parse : String → Option String) (b : TestBuilder) :
    Except String (List String × List String) := do
  let first ← parseOrPanic parse b.entry_point
  let additional ← b.additional_entry_points.mapM (parseOrPanic parse)
  let tests ← b.test_entry_points.mapM (parseOrPanic parse)
  Except.ok (first :: additional, tests)

/-- Whether a modelled computation completed without panicking. -/
def exceptIsOk {ε α : Type} : Except ε α → Bool
  | Except.ok _ => true
  | Except.error _ => false

theorem except_error_bind {ε α β : Type} (e : ε) (f : α → Except ε β) :
    (Except.error e >>= f) = (Except.error e : Except ε β) := rfl

theorem except_ok_bind {ε α β : Type} (a : α) (f : α → Except ε β) :
    (Except.ok a >>= f) = f a := rfl

theorem mapM_parseOrPanic_ok (parse : String → Option String)
    (l : List String) :
    exceptIsOk (l.mapM (parseOrPanic parse)) =
      l.all (fun s => (parse s).isSome) := by
  induction l with
  | nil => rfl
  | cons s rest ih =>
    rw [List.mapM_cons]
    cases hp : parse s with
    | none =>
      simp [parseOrPanic, hp, except_error_bind, exceptIsOk]
    | some m =>
      rw [List.all_cons, hp]
      cases hr : rest.mapM (parseOrPanic parse) with
      | ok xs =>
        rw [hr] at ih
        simp [parseOrPanic, hp, except_ok_bind, hr, exceptIsOk, ← ih]
      | error e =>
        rw [hr] at ih
        simp [parseOrPanic, hp, except_ok_bind, hr, exceptIsOk, ← ih]

/-- C10: each builder operation that parses stored specifier strings panics
(via unwrap) exactly on unparseable inputs: `add_specifier_mapping` on its
specifier, `add_redirect` on either endpoint, and the entry-point parsing of
`transform` on the entry point, any additional entry point, or any test
entry point; on fully parseable inputs the panic branch is unreachable. -/
theorem C10_testbuilder_unwrap_panics (parse : String → Option String)
    (b : TestBuilder) (specifier bare from_spec to_spec : String)
    (version path : Option String) :
    (exceptIsOk (b.add_specifier_mapping parse specifier bare version path) =
        (parse specifier).isSome) ∧
      (exceptIsOk (b.add_redirect parse from_spec to_spec) =
        ((parse from_spec).isSome && (parse to_spec).isSome)) ∧
      (exceptIsOk (b.transform_parse_entry_points parse) =
        ((parse b.entry_point).isSome &&
          b.additional_entry_points.all (fun s => (parse s).isSome) &&
          b.test_entry_points.all (fun s => (parse s).isSome))) := by
  refine ⟨?_, ?_, ?_⟩
  · unfold TestBuilder.add_specifier_mapping
    cases hp : parse specifier with
    | none => simp [parseOrPanic, hp, except_error_bind, exceptIsOk]
    | some m => simp [parseOrPanic, hp, except_ok_bind, exceptIsOk]
  · unfold TestBuilder.add_redirect
    cases hp : parse from_spec with
    | none => simp [parseOrPanic, hp, except_error_bind, exceptIsOk]
    | some m =>
      cases hq : parse to_spec with
      | none =>
        simp [parseOrPanic, hp, hq, except_ok_bind, except_error_bind,
          exceptIsOk]
      | some m2 =>
        simp [parseOrPanic, hp, hq, except_ok_bind, exceptIsOk]
  · unfold TestBuilder.transform_parse_entry_points
    cases hp : parse b.entry_point with
    | none => simp [parseOrPanic, hp, except_error_bind, exceptIsOk]
    | some m =>
      rw [show parseOrPanic parse b.entry_point = Except.ok m by
        simp [parseOrPanic, hp], except_ok_bind]
      cases ha : b.additional_entry_points.mapM (parseOrPanic parse) with
      | error e =>
        have := mapM_parseOrPanic_ok parse b.additional_entry_points
        rw [ha] at this
        simp [ha, except_error_bind, exceptIsOk, hp, ← this]
      | ok xs =>
        have hall1 := mapM_parseOrPanic_ok parse b.additional_entry_points
        rw [ha] at hall1
        cases ht : b.test_entry_points.mapM (parseOrPanic parse) with
        | error e =>
          have hall2 := mapM_parseOrPanic_ok parse b.test_entry_points
          rw [ht] at hall2
          simp [ha, ht, except_ok_bind, except_error_bind, exceptIsOk, hp,
            ← hall1, ← hall2]
        | ok ts =>
          have hall2 := mapM_parseOrPanic_ok parse b.test_entry_points
          rw [ht] at hall2
          simp [ha, ht, except_ok_bind, exceptIsOk, hp, ← hall1, ← hall2]
